import Mathlib

/-!
Verification of the rename-planning core of `_scripts/rename_artworks.py`.

The development shallowly embeds the script's pure logic:

* `slugify` — the title-to-slug normalizer.  The composition of
  `unicodedata.normalize("NFKD", ·)` with `.encode("ascii", "ignore")`
  is a library call that cannot be reproduced here, so it is modelled as
  an explicit parameter `fold : Char → List Char` mapping each character
  to its NFKD-decomposed, ASCII-filtered expansion.  All theorems either
  hold for every `fold` or assume only the true fact that ASCII slug
  characters are fixed points of that composition.
* `is_filename_title`, `image_name_seems_better` — the classifier and
  the descriptiveness heuristic.
* `planStep` / `planDecisions` / `build_rename_plan` — the two-pass plan
  builder.  The Python loop appends at most one `RenamePlan` per record;
  `planDecisions` keeps those per-record outcomes positionally
  (`none` = no decision emitted) and `build_rename_plan` flattens them,
  which is exactly the list the Python function returns.
* `executePlan` / `updateGalleries` — the executor, with filesystem
  effects abstracted into an oracle environment and an explicit trace of
  attempted operations.

Records carry the already-parsed frontmatter fields (`title`, `image`);
an empty string models a missing field, matching the Python
`frontmatter.get(..., "")` defaults.  The on-disk state consulted during
planning is abstracted as two membership tests (`Disk`).
-/

/-! ## Character helpers

Character classes are stated on code points; the comments give the
regex/Python construct each one embeds. -/

/-- Python `\s` on an ASCII string together with `_`:
the character class `[\s_]` of `re.sub(r"[\s_]+", "-", slug)`.
(Code points 9–13, 28–31 and 32 are the ASCII characters Python's `re`
treats as whitespace; 95 is `_`.) -/
def isSpaceUnd (c : Char) : Bool :=
  (9 ≤ c.toNat && c.toNat ≤ 13) || (28 ≤ c.toNat && c.toNat ≤ 32) || c.toNat = 95

/-- The character class `[a-z0-9-]` kept by `re.sub(r"[^a-z0-9-]", "", slug)`
(code points 97–122, 48–57, 45). -/
def isSlugChar (c : Char) : Bool :=
  (97 ≤ c.toNat && c.toNat ≤ 122) || (48 ≤ c.toNat && c.toNat ≤ 57) || c.toNat = 45

/-- `str.lower` restricted to ASCII (code points 65–90 map to 97–122);
the titles reaching `.lower()` in `slugify` are already ASCII-encoded. -/
def toLowerAscii (c : Char) : Char :=
  if 65 ≤ c.toNat && c.toNat ≤ 90 then Char.ofNat (c.toNat + 32) else c

/-- ASCII digit, the `\d` of the filename-pattern regexes. -/
def isDigitCh (c : Char) : Bool := 48 ≤ c.toNat && c.toNat ≤ 57

/-! ## slugify -/

/-- `re.sub(r"[\s_]+", "-", s)`: each maximal run of whitespace or
underscores becomes a single hyphen.  The flag records whether the
previous character belonged to the current run. -/
def subSpaceRuns : List Char → Bool → List Char
  | [], _ => []
  | c :: rest, inRun =>
    if isSpaceUnd c then
      (if inRun then [] else ['-']) ++ subSpaceRuns rest true
    else
      c :: subSpaceRuns rest false

/-- `re.sub(r"-+", "-", s)`: each maximal run of hyphens becomes one. -/
def collapseHyphens : List Char → Bool → List Char
  | [], _ => []
  | c :: rest, inRun =>
    if c = '-' then
      (if inRun then [] else ['-']) ++ collapseHyphens rest true
    else
      c :: collapseHyphens rest false

/-- The hyphen test used by `.strip("-")`. -/
def isHyphen (c : Char) : Bool := c = '-'

/-- `str.strip("-")`: drop leading and trailing hyphens. -/
def stripHyphens (l : List Char) : List Char :=
  (l.dropWhile isHyphen).rdropWhile isHyphen

/-- `slugify` from `rename_artworks.py`, on character lists.
`fold` models `unicodedata.normalize("NFKD", ·)` composed with
`.encode("ascii", "ignore")` character by character; the remaining steps
follow the source line by line. -/
def slugify (fold : Char → List Char) (title : List Char) : List Char :=
  let s0 := (title.flatMap fold).map toLowerAscii
  let s1 := subSpaceRuns s0 false
  let s2 := s1.filter isSlugChar
  let s3 := collapseHyphens s2 false
  stripHyphens s3

/-- `slugify` on strings. -/
def slugifyStr (fold : Char → List Char) (title : String) : String :=
  String.mk (slugify fold title.toList)

/-- A `fold` valid for ASCII-only inputs: NFKD normalization followed by
ASCII-ignore encoding is the identity on ASCII characters and drops
everything a non-ASCII character decomposes into beyond ASCII (this
model drops the whole character). -/
def keepAscii (c : Char) : List Char := if c.toNat < 128 then [c] else []

/-! ## Idempotence of `slugify` (claim C2)

A slug produced by `slugify` consists of `[a-z0-9-]` characters, has no
two adjacent hyphens, and neither starts nor ends with a hyphen; on such
strings every stage of `slugify` is the identity. -/

/-- No two adjacent hyphens. -/
def noDouble : List Char → Bool
  | [] => true
  | [_] => true
  | a :: b :: rest => (!(a == '-' && b == '-')) && noDouble (b :: rest)

/-- The shape invariant of `slugify` output. -/
def canonicalSlug (l : List Char) : Prop :=
  (∀ c ∈ l, isSlugChar c = true) ∧ noDouble l = true ∧
    l.head? ≠ some '-' ∧ l.getLast? ≠ some '-'

theorem slug_char_not_space {c : Char} (h : isSlugChar c = true) :
    isSpaceUnd c = false := by
  simp only [isSlugChar, Bool.or_eq_true, Bool.and_eq_true, decide_eq_true_eq] at h
  rw [← Bool.not_eq_true]
  intro hc
  simp only [isSpaceUnd, Bool.or_eq_true, Bool.and_eq_true, decide_eq_true_eq] at hc
  omega

theorem slug_char_lower {c : Char} (h : isSlugChar c = true) :
    toLowerAscii c = c := by
  simp only [isSlugChar, Bool.or_eq_true, Bool.and_eq_true, decide_eq_true_eq] at h
  rw [toLowerAscii, if_neg]
  simp only [Bool.and_eq_true, decide_eq_true_eq, not_and]
  omega

theorem slug_char_ascii {c : Char} (h : isSlugChar c = true) : c.toNat < 128 := by
  simp only [isSlugChar, Bool.or_eq_true, Bool.and_eq_true, decide_eq_true_eq] at h
  omega

theorem keepAscii_fix : ∀ c : Char, isSlugChar c = true → keepAscii c = [c] := by
  intro c h
  rw [keepAscii, if_pos]
  simpa using slug_char_ascii h

theorem subSpaceRuns_id {l : List Char} (h : ∀ c ∈ l, isSpaceUnd c = false) :
    ∀ b, subSpaceRuns l b = l := by
  induction l with
  | nil => intro b; rfl
  | cons c rest ih =>
    intro b
    rw [subSpaceRuns, if_neg]
    · rw [ih fun x hx => h x (List.mem_cons_of_mem _ hx)]
    · simp [h c (List.mem_cons_self c rest)]

theorem noDouble_tail {a : Char} {l : List Char} (h : noDouble (a :: l) = true) :
    noDouble l = true := by
  cases l with
  | nil => rfl
  | cons b rest => exact (Bool.and_eq_true _ _ |>.mp h).2

theorem noDouble_cons {a : Char} {l : List Char}
    (ha : a ≠ '-' ∨ l.head? ≠ some '-') (hl : noDouble l = true) :
    noDouble (a :: l) = true := by
  cases l with
  | nil => rfl
  | cons b rest =>
    rw [noDouble, Bool.and_eq_true]
    refine ⟨?_, hl⟩
    rcases ha with ha | ha
    · simp [ha]
    · have hb : b ≠ '-' := by simpa using ha
      simp [hb]

theorem noDouble_head {l : List Char} (h : noDouble ('-' :: l) = true) :
    l.head? ≠ some '-' := by
  cases l with
  | nil => simp
  | cons b rest =>
    rw [noDouble, Bool.and_eq_true] at h
    have := h.1
    simp only [List.head?_cons, ne_eq, Option.some.injEq]
    intro hb
    simp [hb] at this

theorem collapseHyphens_slugChars {l : List Char}
    (h : ∀ c ∈ l, isSlugChar c = true) :
    ∀ b, ∀ c ∈ collapseHyphens l b, isSlugChar c = true := by
  induction l with
  | nil => intro b c hc; simp [collapseHyphens] at hc
  | cons a rest ih =>
    intro b c hc
    rw [collapseHyphens] at hc
    by_cases ha : a = '-'
    · rw [if_pos ha] at hc
      by_cases hb : b = true
      · subst hb
        simp only [if_pos rfl, List.nil_append] at hc
        exact ih (fun x hx => h x (List.mem_cons_of_mem _ hx)) true c hc
      · rw [Bool.not_eq_true] at hb
        subst hb
        simp only [if_neg Bool.false_ne_true, List.singleton_append,
          List.mem_cons] at hc
        rcases hc with hc | hc
        · subst hc; decide
        · exact ih (fun x hx => h x (List.mem_cons_of_mem _ hx)) true c hc
    · rw [if_neg ha, List.mem_cons] at hc
      rcases hc with hc | hc
      · subst hc; exact h c (List.mem_cons_self c rest)
      · exact ih (fun x hx => h x (List.mem_cons_of_mem _ hx)) false c hc

theorem collapseHyphens_true_head (l : List Char) :
    (collapseHyphens l true).head? ≠ some '-' := by
  induction l with
  | nil => simp [collapseHyphens]
  | cons a rest ih =>
    rw [collapseHyphens]
    by_cases ha : a = '-'
    · simpa [ha] using ih
    · simp [ha]

theorem collapseHyphens_noDouble (l : List Char) :
    ∀ b, noDouble (collapseHyphens l b) = true := by
  induction l with
  | nil => intro b; rfl
  | cons a rest ih =>
    intro b
    rw [collapseHyphens]
    by_cases ha : a = '-'
    · rw [if_pos ha]
      cases b with
      | true => simpa using ih true
      | false =>
        simp only [if_neg Bool.false_ne_true, List.singleton_append]
        exact noDouble_cons (Or.inr (collapseHyphens_true_head rest)) (ih true)
    · rw [if_neg ha]
      exact noDouble_cons (Or.inl ha) (ih false)

theorem collapseHyphens_id {l : List Char} (h : noDouble l = true) :
    collapseHyphens l false = l ∧
      (l.head? ≠ some '-' → collapseHyphens l true = l) := by
  induction l with
  | nil => exact ⟨rfl, fun _ => rfl⟩
  | cons a rest ih =>
    have ihr := ih (noDouble_tail h)
    by_cases ha : a = '-'
    · subst ha
      have hh : rest.head? ≠ some '-' := noDouble_head h
      constructor
      · rw [collapseHyphens, if_pos rfl]
        simp [ihr.2 hh]
      · intro hcon
        simp at hcon
    · constructor
      · rw [collapseHyphens, if_neg ha, ihr.1]
      · intro _
        rw [collapseHyphens, if_neg ha, ihr.1]

theorem dropWhile_isHyphen_head (l : List Char) :
    (l.dropWhile isHyphen).head? ≠ some '-' := by
  induction l with
  | nil => simp
  | cons a rest ih =>
    by_cases ha : a = '-'
    · rw [List.dropWhile_cons_of_pos (by simp [isHyphen, ha])]
      exact ih
    · rw [List.dropWhile_cons_of_neg (by simp [isHyphen, ha])]
      simpa using ha

theorem stripHyphens_head (l : List Char) :
    (stripHyphens l).head? ≠ some '-' := by
  rw [stripHyphens]
  obtain ⟨t, ht⟩ := List.rdropWhile_prefix isHyphen (l.dropWhile isHyphen)
  cases hres : (l.dropWhile isHyphen).rdropWhile isHyphen with
  | nil => simp
  | cons c res =>
    rw [hres] at ht
    have hcl : (l.dropWhile isHyphen).head? = some c := by
      rw [← ht]; rfl
    have := dropWhile_isHyphen_head l
    rw [hcl] at this
    simpa using this

theorem stripHyphens_last (l : List Char) :
    (stripHyphens l).getLast? ≠ some '-' := by
  intro hcon
  have hne : stripHyphens l ≠ [] := by
    intro h0; rw [h0] at hcon; simp at hcon
  rw [List.getLast?_eq_getLast _ hne] at hcon
  have hlast : (stripHyphens l).getLast hne = '-' := Option.some_inj.mp hcon
  have hnot := List.rdropWhile_last_not isHyphen (l.dropWhile isHyphen) hne
  apply hnot
  show isHyphen ((stripHyphens l).getLast hne) = true
  rw [hlast]
  rfl

theorem noDouble_append_left : ∀ (l t : List Char),
    noDouble (l ++ t) = true → noDouble l = true := by
  intro l
  induction l with
  | nil => intro t _; rfl
  | cons a l' ih =>
    intro t h
    cases hl' : l' with
    | nil => rfl
    | cons b l'' =>
      subst hl'
      rw [List.cons_append, List.cons_append] at h
      rw [noDouble, Bool.and_eq_true] at h ⊢
      refine ⟨h.1, ?_⟩
      exact ih t (by rw [List.cons_append]; exact h.2)

theorem noDouble_dropWhile {l : List Char} (p : Char → Bool)
    (h : noDouble l = true) : noDouble (l.dropWhile p) = true := by
  induction l with
  | nil => rfl
  | cons a rest ih =>
    by_cases ha : p a = true
    · rw [List.dropWhile_cons_of_pos ha]
      exact ih (noDouble_tail h)
    · rw [List.dropWhile_cons_of_neg ha]
      exact h

theorem stripHyphens_noDouble {l : List Char} (h : noDouble l = true) :
    noDouble (stripHyphens l) = true := by
  obtain ⟨t, ht⟩ := List.rdropWhile_prefix isHyphen (l.dropWhile isHyphen)
  have hm : noDouble (l.dropWhile isHyphen) = true := noDouble_dropWhile isHyphen h
  rw [← ht] at hm
  rw [stripHyphens]
  exact noDouble_append_left _ t hm

theorem stripHyphens_slugChars {l : List Char}
    (h : ∀ c ∈ l, isSlugChar c = true) :
    ∀ c ∈ stripHyphens l, isSlugChar c = true := by
  intro c hc
  rw [stripHyphens] at hc
  obtain ⟨t, ht⟩ := List.rdropWhile_prefix isHyphen (l.dropWhile isHyphen)
  have h1 : c ∈ l.dropWhile isHyphen := ht ▸ List.mem_append_left t hc
  exact h c ((List.dropWhile_suffix isHyphen).subset h1)

/-- Every `slugify` output is a canonical slug. -/
theorem slugify_canonical (fold : Char → List Char) (t : List Char) :
    canonicalSlug (slugify fold t) := by
  rw [slugify]
  refine ⟨?_, ?_, ?_, ?_⟩
  · apply stripHyphens_slugChars
    apply collapseHyphens_slugChars _ false
    intro c hc
    exact (List.mem_filter.mp hc).2
  · exact stripHyphens_noDouble (collapseHyphens_noDouble _ false)
  · exact stripHyphens_head _
  · exact stripHyphens_last _

theorem flatMap_fix {fold : Char → List Char} : ∀ {l : List Char},
    (∀ c ∈ l, fold c = [c]) → l.flatMap fold = l := by
  intro l
  induction l with
  | nil => intro _; rfl
  | cons a rest ih =>
    intro hf
    rw [List.flatMap_cons, hf a (List.mem_cons_self a rest),
      ih fun c hc => hf c (List.mem_cons_of_mem _ hc)]
    rfl

theorem map_lower_fix : ∀ {l : List Char},
    (∀ c ∈ l, isSlugChar c = true) → l.map toLowerAscii = l := by
  intro l
  induction l with
  | nil => intro _; rfl
  | cons a rest ih =>
    intro h
    rw [List.map_cons, slug_char_lower (h a (List.mem_cons_self a rest)),
      ih fun c hc => h c (List.mem_cons_of_mem _ hc)]

theorem dropWhile_isHyphen_fix {l : List Char} (h : l.head? ≠ some '-') :
    l.dropWhile isHyphen = l := by
  cases l with
  | nil => rfl
  | cons a rest =>
    have ha : a ≠ '-' := by simpa using h
    rw [List.dropWhile_cons_of_neg (by simp [isHyphen, ha])]

theorem rdropWhile_isHyphen_fix {l : List Char} (h : l.getLast? ≠ some '-') :
    l.rdropWhile isHyphen = l := by
  rw [List.rdropWhile_eq_self_iff]
  intro hl
  rw [List.getLast?_eq_getLast l hl] at h
  have : l.getLast hl ≠ '-' := by simpa using h
  simp [isHyphen, this]

/-- Every stage of `slugify` fixes a canonical slug whose characters the
unicode fold also fixes. -/
theorem slugify_fixed {fold : Char → List Char} {r : List Char}
    (hc : canonicalSlug r) (hf : ∀ c ∈ r, fold c = [c]) :
    slugify fold r = r := by
  obtain ⟨hslug, hnd, hhead, hlast⟩ := hc
  simp only [slugify]
  rw [flatMap_fix hf, map_lower_fix hslug,
    subSpaceRuns_id (fun c hcm => slug_char_not_space (hslug c hcm)) false,
    List.filter_eq_self.mpr hslug, (collapseHyphens_id hnd).1, stripHyphens,
    dropWhile_isHyphen_fix hhead, rdropWhile_isHyphen_fix hlast]

/-- C2: for every title `t` and every character fold that fixes the slug
alphabet `[a-z0-9-]` (true of NFKD normalization + ASCII-ignore
encoding), `slugify` is idempotent: `slugify (slugify t) = slugify t`. -/
theorem C2_slugify_idempotent (fold : Char → List Char)
    (hf : ∀ c, isSlugChar c = true → fold c = [c]) (t : String) :
    slugifyStr fold (slugifyStr fold t) = slugifyStr fold t := by
  have hc := slugify_canonical fold t.toList
  have h2 : slugify fold (slugify fold t.toList) = slugify fold t.toList :=
    slugify_fixed hc fun c hcm => hf c (hc.1 c hcm)
  show String.mk (slugify fold (String.mk (slugify fold t.toList)).toList) =
    String.mk (slugify fold t.toList)
  rw [show (String.mk (slugify fold t.toList)).toList = slugify fold t.toList from rfl, h2]

/-- Witness for C2 at the concrete fold `keepAscii` and a concrete title. -/
theorem C2_slugify_idempotent_witness :
    (∀ c, isSlugChar c = true → keepAscii c = [c]) ∧
      slugifyStr keepAscii (slugifyStr keepAscii "Sunrise Over Mt. Diablo") =
        slugifyStr keepAscii "Sunrise Over Mt. Diablo" :=
  ⟨keepAscii_fix, C2_slugify_idempotent keepAscii keepAscii_fix "Sunrise Over Mt. Diablo"⟩

/-! ## Filename-likeness classifier and path helpers -/

/-- `pat` is a prefix of `l` (Python `str.startswith` / anchored regex). -/
def seqLeads : List Char → List Char → Bool
  | [], _ => true
  | _ :: _, [] => false
  | p :: ps, h :: hs => p == h && seqLeads ps hs

/-- `pat` occurs somewhere in `l` (Python `in` on strings). -/
def seqOccurs (pat : List Char) : List Char → Bool
  | [] => seqLeads pat []
  | h :: t => seqLeads pat (h :: t) || seqOccurs pat t

/-- `pat` is a suffix of `l` (Python `str.endswith` / `$`-anchored search). -/
def seqEnds (pat l : List Char) : Bool := seqLeads pat.reverse l.reverse

/-- `str.lower` on ASCII strings. -/
def strLower (s : String) : String := String.mk (s.toList.map toLowerAscii)

/-- `re.match(r"^\d{8}[-_]\d+", title)`: eight digits, a separator, and at
least one further digit, anchored at the start. -/
def matchesDate : List Char → Bool
  | c0 :: c1 :: c2 :: c3 :: c4 :: c5 :: c6 :: c7 :: sep :: c8 :: _ =>
    isDigitCh c0 && isDigitCh c1 && isDigitCh c2 && isDigitCh c3 &&
      isDigitCh c4 && isDigitCh c5 && isDigitCh c6 && isDigitCh c7 &&
      (sep == '-' || sep == '_') && isDigitCh c8
  | _ => false

/-- `re.match(r"^img[-_]\d+", title, re.IGNORECASE)` applied to the
lowercased title. -/
def matchesImg : List Char → Bool
  | ci :: cm :: cg :: sep :: cd :: _ =>
    ci == 'i' && cm == 'm' && cg == 'g' && (sep == '-' || sep == '_') && isDigitCh cd
  | _ => false

/-- `is_filename_title` from `rename_artworks.py`: the title ends in a
known image extension (case-insensitively), or starts like a date-based
camera filename, or starts like an `IMG_xxxx` name. -/
def is_filename_title (title : String) : Bool :=
  let lower := (strLower title).toList
  seqEnds ".jpg".toList lower || seqEnds ".jpeg".toList lower ||
    seqEnds ".png".toList lower || seqEnds ".gif".toList lower ||
    matchesDate title.toList || matchesImg lower

/-- Split a character list at `/` (the component structure `pathlib`
sees on a POSIX path). -/
def splitOnSlash : List Char → List Char → List (List Char)
  | [], acc => [acc.reverse]
  | c :: rest, acc =>
    if c = '/' then acc.reverse :: splitOnSlash rest []
    else splitOnSlash rest (c :: acc)

/-- The components of a `/`-separated path. -/
def pathParts (p : String) : List String := (splitOnSlash p.toList []).map String.mk

/-- The last element of a list of strings, or a default. -/
def lastOr (d : String) : List String → String
  | [] => d
  | [x] => x
  | _ :: x :: xs => lastOr d (x :: xs)

/-- `Path(p).name`: the final path component. -/
def pathName (p : String) : String := lastOr "" (pathParts p)

/-- `Path(p).parent.name`: the next-to-last path component. -/
def pathParentName (p : String) : String := lastOr "" (pathParts p).dropLast

/-- `Path(name).suffix` for a bare file name: the substring from the last
dot, unless the dot is the first or last character or there is none. -/
def pathSuffix (name : String) : String :=
  let cs := name.toList
  let afterDot := cs.reverse.takeWhile fun c => c ≠ '.'
  if afterDot.length = cs.length then ""
  else if afterDot.length = 0 then ""
  else if afterDot.length + 1 = cs.length then ""
  else String.mk ('.' :: afterDot.reverse)

/-- `Path(name).stem` for a bare file name: the name minus its suffix. -/
def pathStem (name : String) : String :=
  String.mk (name.toList.take (name.toList.length - (pathSuffix name).toList.length))

/-! ## The descriptiveness heuristic -/

/-- Python whitespace used by `str.split()` on ASCII strings. -/
def isWs (c : Char) : Bool :=
  (9 ≤ c.toNat && c.toNat ≤ 13) || (28 ≤ c.toNat && c.toNat ≤ 32)

/-- `str.split()`: maximal non-whitespace chunks, no empties. -/
def splitWs : List Char → List Char → List (List Char)
  | [], acc => if acc.isEmpty then [] else [acc.reverse]
  | c :: rest, acc =>
    if isWs c then
      if acc.isEmpty then splitWs rest [] else acc.reverse :: splitWs rest []
    else splitWs rest (c :: acc)

/-- `s.replace("-", " ").split()` from `image_name_seems_better`. -/
def wordsOf (s : String) : List (List Char) :=
  splitWs (s.toList.map fun c => if c = '-' then ' ' else c) []

/-- The `generic_words` set of `image_name_seems_better`. -/
def genericWords : List String := ["jpg", "jpeg", "png", "img", "image", "photo", "pic"]

/-- The `descriptive_patterns` list of `image_name_seems_better`. -/
def descriptivePatterns : List String :=
  ["hotel", "roofline", "village", "portrait", "study", "view"]

/-- `image_name_seems_better` from `rename_artworks.py`: the image stem
has more than two extra distinct non-generic words, or contains a marker
word absent from the slug. -/
def image_name_seems_better (image_name : String) (title_slug : String) : Bool :=
  let image_slug := pathStem image_name
  let image_words := (wordsOf image_slug).dedup.filter
    fun w => !((genericWords.map String.toList).contains w)
  let title_words := (wordsOf title_slug).dedup.filter
    fun w => !((genericWords.map String.toList).contains w)
  if title_words.length + 2 < image_words.length then true
  else descriptivePatterns.any fun p =>
    seqOccurs p.toList (strLower image_slug).toList &&
      !(seqOccurs p.toList (strLower title_slug).toList)

/-! ## The plan builder -/

/-- One artwork record: the markdown file's stem (its identifier inside
`_artworks/`) and the parsed frontmatter fields, with `""` for a missing
field. -/
structure Record where
  stem : String
  title : String
  image : String
deriving DecidableEq

/-- The read-only on-disk state consulted during planning:
`mdExists n` for `(ARTWORKS_DIR / n).exists()` and
`imgExists g n` for `(ASSETS_DIR / g / n).exists()`. -/
structure Disk where
  mdExists : String → Bool
  imgExists : String → String → Bool

/-- `RenamePlan` from `rename_artworks.py`; `md_stem` stands for the
`md_file` path (all markdown files share one directory) and `image_file`
is the (gallery, basename) pair of the `old_image_file` path. -/
structure RenamePlan where
  md_stem : String
  new_md_name : String
  image_file : Option (String × String)
  new_image_name : Option String
  title : String
  warnings : List String
  skip_reason : Option String
deriving DecidableEq

/-- The two claim tables of the second pass (`planned_md_names` and
`planned_image_names`), as association lists from target name to the
claiming record's stem. -/
structure Claimed where
  plannedMd : List (String × String)
  plannedImg : List (String × String)
deriving DecidableEq

/-- `len(title_to_files[t])`: how many records of the batch carry a
nonempty title whose lowercase form is `t`. -/
def titleCount (batch : List Record) (t : String) : Nat :=
  batch.countP fun r => !(r.title == "") && (strLower r.title == t)

/-- The f-string `f"Duplicate title (used by {n} files)"`. -/
def dupReason (n : Nat) : String :=
  "Duplicate title (used by " ++ toString n ++ " files)"

/-- A skip entry as appended by `build_rename_plan`. -/
def mkSkip (r : Record) (reason : String) : RenamePlan :=
  ⟨r.stem, "", none, none, r.title, [], some reason⟩

/-- The image-handling tail of the loop body (lines 287–325): runs only
for a record that will Proceed, with the markdown target already claimed
in `st`. -/
def imageStage (disk : Disk) (r : Record) (new_slug new_md_name : String)
    (st : Claimed) : RenamePlan × Claimed :=
  let base := pathName r.image
  let gallery := pathParentName r.image
  let ext := pathSuffix base
  let new_image_name := new_slug ++ ext
  if disk.imgExists gallery base then
    let warns : List String :=
      if image_name_seems_better base new_slug then
        ["Image name " ++ base ++ " may be more descriptive than " ++ new_image_name]
      else []
    if base = new_image_name then
      (⟨r.stem, new_md_name, none, none, r.title, warns, none⟩, st)
    else if disk.imgExists gallery new_image_name then
      (⟨r.stem, new_md_name, none, none, r.title,
        warns ++ ["Image target already exists: " ++ new_image_name], none⟩, st)
    else
      match st.plannedImg.lookup new_image_name with
      | some other =>
        (⟨r.stem, new_md_name, none, none, r.title,
          warns ++ ["Image collision with planned rename of " ++ other ++ ".md"],
          none⟩, st)
      | none =>
        (⟨r.stem, new_md_name, some (gallery, base), some new_image_name, r.title,
          warns, none⟩, ⟨st.plannedMd, (new_image_name, r.stem) :: st.plannedImg⟩)
  else
    (⟨r.stem, new_md_name, none, none, r.title,
      ["Image file not found: " ++ base], none⟩, st)

/-- One iteration of the second pass of `build_rename_plan` (lines
194–325): the decision for record `r` (`none` when the loop `continue`s
without appending a plan) and the updated claim tables. -/
def planStep (batch : List Record) (fold : Char → List Char) (disk : Disk)
    (st : Claimed) (r : Record) : Option RenamePlan × Claimed :=
  if r.title = "" ∨ r.image = "" then (none, st)
  else if is_filename_title r.title then
    (some (mkSkip r "Title looks like a filename"), st)
  else if 1 < titleCount batch (strLower r.title) then
    (some (mkSkip r (dupReason (titleCount batch (strLower r.title)))), st)
  else
    let new_slug := slugifyStr fold r.title
    if new_slug = r.stem then (none, st)
    else if new_slug = "" then (some (mkSkip r "Empty slug generated"), st)
    else
      let new_md_name := new_slug ++ ".md"
      if disk.mdExists new_md_name ∧ new_md_name ≠ r.stem ++ ".md" then
        (some (mkSkip r ("Target file already exists: " ++ new_md_name)), st)
      else
        match st.plannedMd.lookup new_md_name with
        | some other =>
          (some (mkSkip r ("Collision with planned rename of " ++ other ++ ".md")), st)
        | none =>
          let st1 : Claimed := ⟨(new_md_name, r.stem) :: st.plannedMd, st.plannedImg⟩
          let res := imageStage disk r new_slug new_md_name st1
          (some res.1, res.2)

/-- The second pass over the remaining records, threading the claim
tables. -/
def planLoop (batch : List Record) (fold : Char → List Char) (disk : Disk) :
    List Record → Claimed → List (Option RenamePlan)
  | [], _ => []
  | r :: rest, st =>
    let res := planStep batch fold disk st r
    res.1 :: planLoop batch fold disk rest res.2

/-- The per-record outcomes of `build_rename_plan`, positionally aligned
with the batch (`none` = no plan entry appended for that record). -/
def planDecisions (fold : Char → List Char) (disk : Disk)
    (batch : List Record) : List (Option RenamePlan) :=
  planLoop batch fold disk batch ⟨[], []⟩

/-- `build_rename_plan` from `rename_artworks.py`: the list of appended
plan entries, in loop order. -/
def build_rename_plan (fold : Char → List Char) (disk : Disk)
    (batch : List Record) : List RenamePlan :=
  (planDecisions fold disk batch).reduceOption

/-! ## The plan executor

Filesystem effects are abstracted: `ExecEnv` is an oracle saying which
`git mv` calls succeed (`git_mv` returns `False` both when the source is
missing and when the subprocess fails) together with the contents of the
`_data/galleries/*.yml` files.  Each executor function returns the
`actions` strings of the source and a trace of the operations it
attempted, in order. -/

/-- An attempted filesystem operation. -/
inductive FsOp where
  | gitMove (src dst : String)
  | rewriteDoc (path : String)
deriving DecidableEq

/-- `str.replace`, fuelled so that the recursion is structural: replace
every non-overlapping occurrence of `pat`, scanning left to right.  A
match consumes `pat.length ≥ 1` characters, so fuel `l.length` never
runs out (callers always pass a nonempty `pat`). -/
def replaceAllAux (pat rep : List Char) : Nat → List Char → List Char
  | _, [] => []
  | 0, l => l
  | fuel + 1, c :: rest =>
    if pat ≠ [] ∧ seqLeads pat (c :: rest) = true then
      rep ++ replaceAllAux pat rep fuel ((c :: rest).drop pat.length)
    else
      c :: replaceAllAux pat rep fuel rest

/-- `str.replace` on character lists. -/
def replaceAll (pat rep l : List Char) : List Char :=
  replaceAllAux pat rep l.length l

/-- `str.replace` on strings. -/
def strReplace (s pat rep : String) : String :=
  String.mk (replaceAll pat.toList rep.toList s.toList)

/-- `update_gallery_data_files` over the given `*.yml` (name, content)
pairs: in every file whose content mentions `old_slug`, replace every
`- old_slug` by `- new_slug`, and record the changed files. -/
def update_gallery_data_files (old_slug new_slug : String) :
    List (String × String) → List String × List FsOp
  | [] => ([], [])
  | (name, content) :: rest =>
    let res := update_gallery_data_files old_slug new_slug rest
    if seqOccurs old_slug.toList content.toList then
      let newContent := strReplace content ("- " ++ old_slug) ("- " ++ new_slug)
      if newContent ≠ content then
        (name :: res.1, FsOp.rewriteDoc name :: res.2)
      else res
    else res

/-- The oracle environment for execution. -/
structure ExecEnv where
  mdMvOk : String → String → Bool
  imgMvOk : String → String → String → Bool
  galleryFiles : List (String × String)

/-- `execute_plan` from `rename_artworks.py`: move the markdown file; on
failure report the error and stop this decision.  Otherwise move the
image (if an asset rename is attached), rewrite the image path in the
moved markdown, and update the gallery data files. -/
def executePlan (env : ExecEnv) (p : RenamePlan) : List String × List FsOp :=
  let old_slug := p.md_stem
  let new_slug := pathStem p.new_md_name
  let srcMd := p.md_stem ++ ".md"
  if env.mdMvOk srcMd p.new_md_name then
    let imgPart : List String × List FsOp :=
      match p.image_file, p.new_image_name with
      | some gb, some newImg =>
        if env.imgMvOk gb.1 gb.2 newImg then
          (["git mv " ++ gb.2 ++ " " ++ newImg,
            "Updated image path in " ++ p.new_md_name],
           [FsOp.gitMove gb.2 newImg, FsOp.rewriteDoc p.new_md_name])
        else
          (["ERROR: Failed to move image " ++ gb.2], [FsOp.gitMove gb.2 newImg])
      | _, _ => ([], [])
    let gal := update_gallery_data_files old_slug new_slug env.galleryFiles
    (("git mv " ++ srcMd ++ " " ++ p.new_md_name) ::
       (imgPart.1 ++ gal.1.map fun n => "Updated " ++ n),
     FsOp.gitMove srcMd p.new_md_name :: (imgPart.2 ++ gal.2))
  else
    (["ERROR: Failed to move " ++ srcMd], [FsOp.gitMove srcMd p.new_md_name])

/-- The `will_rename` selection of `main`. -/
def will_rename (plans : List RenamePlan) : List RenamePlan :=
  plans.filter fun p => !(p.new_md_name == "") && p.skip_reason.isNone

/-- The execution loop of `main`: every selected decision is executed in
order, each independently of the outcomes of the previous ones. -/
def executeBatch (env : ExecEnv) (plans : List RenamePlan) :
    List (List String × List FsOp) :=
  plans.map (executePlan env)

/-! ## Structural facts about one planning step -/

theorem lookup_none_tail {k : String} {x : String × String}
    {l : List (String × String)} (h : List.lookup k (x :: l) = none) :
    List.lookup k l = none := by
  obtain ⟨a, b⟩ := x
  rw [List.lookup] at h
  split at h
  · exact absurd h (by simp)
  · exact h

/-- The entry produced by `imageStage` keeps the record's stem. -/
theorem imageStage_md_stem (disk : Disk) (r : Record) (slug name : String)
    (st : Claimed) : (imageStage disk r slug name st).1.md_stem = r.stem := by
  simp only [imageStage]
  split_ifs <;> (try split) <;> rfl

/-- The entry produced by `imageStage` carries the given markdown target. -/
theorem imageStage_new_md_name (disk : Disk) (r : Record) (slug name : String)
    (st : Claimed) : (imageStage disk r slug name st).1.new_md_name = name := by
  simp only [imageStage]
  split_ifs <;> (try split) <;> rfl

/-- The entry produced by `imageStage` keeps the record's title. -/
theorem imageStage_title (disk : Disk) (r : Record) (slug name : String)
    (st : Claimed) : (imageStage disk r slug name st).1.title = r.title := by
  simp only [imageStage]
  split_ifs <;> (try split) <;> rfl

/-- The entry produced by `imageStage` never skips. -/
theorem imageStage_skip (disk : Disk) (r : Record) (slug name : String)
    (st : Claimed) : (imageStage disk r slug name st).1.skip_reason = none := by
  simp only [imageStage]
  split_ifs <;> (try split) <;> rfl

/-- `imageStage` leaves the markdown claim table untouched. -/
theorem imageStage_plannedMd (disk : Disk) (r : Record) (slug name : String)
    (st : Claimed) : (imageStage disk r slug name st).2.plannedMd = st.plannedMd := by
  simp only [imageStage]
  split_ifs <;> (try split) <;> rfl

/-- `imageStage` either attaches no asset rename and leaves the image
claim table untouched, or attaches a target name that was unclaimed and
claims exactly it. -/
theorem imageStage_img (disk : Disk) (r : Record) (slug name : String)
    (st : Claimed) :
    ((imageStage disk r slug name st).1.new_image_name = none ∧
        (imageStage disk r slug name st).2.plannedImg = st.plannedImg) ∨
      (∃ n, (imageStage disk r slug name st).1.new_image_name = some n ∧
        st.plannedImg.lookup n = none ∧
        (imageStage disk r slug name st).2.plannedImg =
          (n, r.stem) :: st.plannedImg) := by
  simp only [imageStage]
  split_ifs <;> try (exact Or.inl ⟨rfl, rfl⟩)
  all_goals
    split
  case _ other hl => exact Or.inl ⟨rfl, rfl⟩
  case _ hl => exact Or.inr ⟨_, rfl, hl, rfl⟩
  case _ other hl => exact Or.inl ⟨rfl, rfl⟩
  case _ hl => exact Or.inr ⟨_, rfl, hl, rfl⟩

/-- Case analysis of one planning step: no decision, a skip, or a
proceed through `imageStage` with a fresh markdown target claimed. -/
theorem planStep_cases (batch : List Record) (fold : Char → List Char)
    (disk : Disk) (st : Claimed) (r : Record) :
    planStep batch fold disk st r = (none, st) ∨
    (∃ reason, planStep batch fold disk st r = (some (mkSkip r reason), st)) ∨
    (∃ slug, slug = slugifyStr fold r.title ∧ slug ≠ "" ∧
      st.plannedMd.lookup (slug ++ ".md") = none ∧
      planStep batch fold disk st r =
        (some (imageStage disk r slug (slug ++ ".md")
            ⟨(slug ++ ".md", r.stem) :: st.plannedMd, st.plannedImg⟩).1,
         (imageStage disk r slug (slug ++ ".md")
            ⟨(slug ++ ".md", r.stem) :: st.plannedMd, st.plannedImg⟩).2)) := by
  simp only [planStep]
  split_ifs with h1 h2 h3 h4 h5 h6
  · exact Or.inl rfl
  · exact Or.inr (Or.inl ⟨_, rfl⟩)
  · exact Or.inr (Or.inl ⟨_, rfl⟩)
  · exact Or.inl rfl
  · exact Or.inr (Or.inl ⟨_, rfl⟩)
  · exact Or.inr (Or.inl ⟨_, rfl⟩)
  · split
    case _ other heq => exact Or.inr (Or.inl ⟨_, rfl⟩)
    case _ heq => exact Or.inr (Or.inr ⟨slugifyStr fold r.title, rfl, h5, heq, rfl⟩)

/-- Each claim table either stays unchanged or grows by one entry at the
front during a planning step. -/
theorem planStep_claims (batch : List Record) (fold : Char → List Char)
    (disk : Disk) (st : Claimed) (r : Record) :
    ((planStep batch fold disk st r).2.plannedMd = st.plannedMd ∨
      ∃ x, (planStep batch fold disk st r).2.plannedMd = x :: st.plannedMd) ∧
    ((planStep batch fold disk st r).2.plannedImg = st.plannedImg ∨
      ∃ y, (planStep batch fold disk st r).2.plannedImg = y :: st.plannedImg) := by
  rcases planStep_cases batch fold disk st r with hc | ⟨reason, hc⟩ |
    ⟨slug, hslug, hne, hlk, hc⟩
  · rw [hc]; exact ⟨Or.inl rfl, Or.inl rfl⟩
  · rw [hc]; exact ⟨Or.inl rfl, Or.inl rfl⟩
  · rw [hc]
    constructor
    · rw [show ((some (imageStage disk r slug (slug ++ ".md")
          ⟨(slug ++ ".md", r.stem) :: st.plannedMd, st.plannedImg⟩).1,
          (imageStage disk r slug (slug ++ ".md")
          ⟨(slug ++ ".md", r.stem) :: st.plannedMd, st.plannedImg⟩).2)).2.plannedMd =
          (imageStage disk r slug (slug ++ ".md")
          ⟨(slug ++ ".md", r.stem) :: st.plannedMd, st.plannedImg⟩).2.plannedMd from rfl,
        imageStage_plannedMd]
      exact Or.inr ⟨_, rfl⟩
    · rcases imageStage_img disk r slug (slug ++ ".md")
          ⟨(slug ++ ".md", r.stem) :: st.plannedMd, st.plannedImg⟩ with
        ⟨_, h2⟩ | ⟨n, _, _, h2⟩
      · rw [show ((some (imageStage disk r slug (slug ++ ".md")
            ⟨(slug ++ ".md", r.stem) :: st.plannedMd, st.plannedImg⟩).1,
            (imageStage disk r slug (slug ++ ".md")
            ⟨(slug ++ ".md", r.stem) :: st.plannedMd, st.plannedImg⟩).2)).2.plannedImg =
            (imageStage disk r slug (slug ++ ".md")
            ⟨(slug ++ ".md", r.stem) :: st.plannedMd, st.plannedImg⟩).2.plannedImg from rfl,
          h2]
        exact Or.inl rfl
      · rw [show ((some (imageStage disk r slug (slug ++ ".md")
            ⟨(slug ++ ".md", r.stem) :: st.plannedMd, st.plannedImg⟩).1,
            (imageStage disk r slug (slug ++ ".md")
            ⟨(slug ++ ".md", r.stem) :: st.plannedMd, st.plannedImg⟩).2)).2.plannedImg =
            (imageStage disk r slug (slug ++ ".md")
            ⟨(slug ++ ".md", r.stem) :: st.plannedMd, st.plannedImg⟩).2.plannedImg from rfl,
          h2]
        exact Or.inr ⟨_, rfl⟩

/-- Facts about a non-skip entry emitted by one planning step: it
belongs to the record, carries the slug-derived markdown target, that
target was unclaimed before the step and is claimed after it. -/
theorem planStep_proceed {batch : List Record} {fold : Char → List Char}
    {disk : Disk} {st : Claimed} {r : Record} {e : RenamePlan}
    (h : (planStep batch fold disk st r).1 = some e)
    (hskip : e.skip_reason = none) :
    e.md_stem = r.stem ∧ e.title = r.title ∧
    e.new_md_name = slugifyStr fold r.title ++ ".md" ∧
    slugifyStr fold r.title ≠ "" ∧
    st.plannedMd.lookup e.new_md_name = none ∧
    ((planStep batch fold disk st r).2.plannedMd.lookup e.new_md_name).isSome := by
  rcases planStep_cases batch fold disk st r with hc | ⟨reason, hc⟩ |
    ⟨slug, hslug, hne, hlk, hc⟩
  · rw [hc] at h; exact absurd h (by simp)
  · rw [hc] at h
    have he : mkSkip r reason = e := Option.some_inj.mp h
    rw [← he] at hskip
    exact absurd hskip (by simp [mkSkip])
  · rw [hc] at h ⊢
    have he : (imageStage disk r slug (slug ++ ".md")
        ⟨(slug ++ ".md", r.stem) :: st.plannedMd, st.plannedImg⟩).1 = e :=
      Option.some_inj.mp h
    subst hslug
    refine ⟨?_, ?_, ?_, hne, ?_, ?_⟩
    · rw [← he, imageStage_md_stem]
    · rw [← he, imageStage_title]
    · rw [← he, imageStage_new_md_name]
    · rw [← he, imageStage_new_md_name]
      exact hlk
    · show ((imageStage disk r (slugifyStr fold r.title) (slugifyStr fold r.title ++ ".md")
        ⟨(slugifyStr fold r.title ++ ".md", r.stem) :: st.plannedMd,
          st.plannedImg⟩).2.plannedMd.lookup e.new_md_name).isSome
      rw [imageStage_plannedMd, ← he, imageStage_new_md_name]
      simp [List.lookup]

/-- Facts about an entry with an attached asset rename: its target was
unclaimed before the step and is claimed after it. -/
theorem planStep_image {batch : List Record} {fold : Char → List Char}
    {disk : Disk} {st : Claimed} {r : Record} {e : RenamePlan} {n : String}
    (h : (planStep batch fold disk st r).1 = some e)
    (hn : e.new_image_name = some n) :
    st.plannedImg.lookup n = none ∧
    ((planStep batch fold disk st r).2.plannedImg.lookup n).isSome := by
  rcases planStep_cases batch fold disk st r with hc | ⟨reason, hc⟩ |
    ⟨slug, hslug, hne, hlk, hc⟩
  · rw [hc] at h; exact absurd h (by simp)
  · rw [hc] at h
    have he : mkSkip r reason = e := Option.some_inj.mp h
    rw [← he] at hn
    exact absurd hn (by simp [mkSkip])
  · rw [hc] at h ⊢
    have he : (imageStage disk r slug (slug ++ ".md")
        ⟨(slug ++ ".md", r.stem) :: st.plannedMd, st.plannedImg⟩).1 = e :=
      Option.some_inj.mp h
    rcases imageStage_img disk r slug (slug ++ ".md")
        ⟨(slug ++ ".md", r.stem) :: st.plannedMd, st.plannedImg⟩ with
      ⟨hnone, _⟩ | ⟨m, hm, hlkm, him⟩
    · rw [he, hn] at hnone
      exact absurd hnone (by simp)
    · rw [he, hn] at hm
      have hmn : m = n := Option.some_inj.mp hm.symm
      subst hmn
      refine ⟨hlkm, ?_⟩
      show ((imageStage disk r slug (slug ++ ".md")
        ⟨(slug ++ ".md", r.stem) :: st.plannedMd,
          st.plannedImg⟩).2.plannedImg.lookup m).isSome
      rw [him]
      simp [List.lookup]

/-- Every non-skip entry produced further down the loop has a markdown
target that is unclaimed when the loop starts. -/
theorem planLoop_fresh_md {batch : List Record} {fold : Char → List Char}
    {disk : Disk} : ∀ {l : List Record} {st : Claimed} {e : RenamePlan},
    some e ∈ planLoop batch fold disk l st → e.skip_reason = none →
    st.plannedMd.lookup e.new_md_name = none := by
  intro l
  induction l with
  | nil => intro st e hm _; simp [planLoop] at hm
  | cons r rest ih =>
    intro st e hm hskip
    simp only [planLoop] at hm
    rcases List.mem_cons.mp hm with h1 | h1
    · exact (planStep_proceed h1.symm hskip).2.2.2.2.1
    · have hrec := ih h1 hskip
      rcases (planStep_claims batch fold disk st r).1 with hmd | ⟨x, hmd⟩
      · rwa [hmd] at hrec
      · rw [hmd] at hrec; exact lookup_none_tail hrec

/-- Every entry with an asset rename produced further down the loop has
an asset target that is unclaimed when the loop starts. -/
theorem planLoop_fresh_img {batch : List Record} {fold : Char → List Char}
    {disk : Disk} : ∀ {l : List Record} {st : Claimed} {e : RenamePlan} {n : String},
    some e ∈ planLoop batch fold disk l st → e.new_image_name = some n →
    st.plannedImg.lookup n = none := by
  intro l
  induction l with
  | nil => intro st e n hm _; simp [planLoop] at hm
  | cons r rest ih =>
    intro st e n hm hn
    simp only [planLoop] at hm
    rcases List.mem_cons.mp hm with h1 | h1
    · exact (planStep_image h1.symm hn).1
    · have hrec := ih h1 hn
      rcases (planStep_claims batch fold disk st r).2 with himg | ⟨y, himg⟩
      · rwa [himg] at hrec
      · rw [himg] at hrec; exact lookup_none_tail hrec

/-- The markdown targets of the non-skip entries of the loop are
pairwise distinct. -/
theorem planLoop_nodup_md (batch : List Record) (fold : Char → List Char)
    (disk : Disk) : ∀ (l : List Record) (st : Claimed),
    ((((planLoop batch fold disk l st).reduceOption).filter
        fun e => e.skip_reason.isNone).map fun e => e.new_md_name).Nodup := by
  intro l
  induction l with
  | nil => intro st; simp [planLoop]
  | cons r rest ih =>
    intro st
    simp only [planLoop]
    cases h1 : (planStep batch fold disk st r).1 with
    | none =>
      rw [List.reduceOption_cons_of_none]
      exact ih _
    | some e =>
      rw [List.reduceOption_cons_of_some]
      by_cases hskip : e.skip_reason.isNone
      · rw [List.filter_cons, if_pos hskip, List.map_cons, List.nodup_cons]
        refine ⟨?_, ih _⟩
        intro hmem
        simp only [List.mem_map, List.mem_filter] at hmem
        obtain ⟨e2, ⟨hmem2, hskip2⟩, hname⟩ := hmem
        have hmem3 : some e2 ∈
            planLoop batch fold disk rest (planStep batch fold disk st r).2 :=
          List.reduceOption_mem_iff.mp hmem2
        have hfresh := planLoop_fresh_md hmem3 (Option.isNone_iff_eq_none.mp hskip2)
        have hclaimed :=
          (planStep_proceed h1 (Option.isNone_iff_eq_none.mp hskip)).2.2.2.2.2
        rw [hname] at hfresh
        rw [hfresh] at hclaimed
        simp at hclaimed
      · rw [List.filter_cons, if_neg hskip]
        exact ih _

/-- The asset targets attached across the loop are pairwise distinct. -/
theorem planLoop_nodup_img (batch : List Record) (fold : Char → List Char)
    (disk : Disk) : ∀ (l : List Record) (st : Claimed),
    (((planLoop batch fold disk l st).reduceOption).filterMap
        fun e => e.new_image_name).Nodup := by
  intro l
  induction l with
  | nil => intro st; simp [planLoop]
  | cons r rest ih =>
    intro st
    simp only [planLoop]
    cases h1 : (planStep batch fold disk st r).1 with
    | none =>
      rw [List.reduceOption_cons_of_none]
      exact ih _
    | some e =>
      rw [List.reduceOption_cons_of_some]
      cases hn : e.new_image_name with
      | none =>
        rw [List.filterMap_cons_none hn]
        exact ih _
      | some n =>
        rw [List.filterMap_cons_some hn, List.nodup_cons]
        refine ⟨?_, ih _⟩
        intro hmem
        simp only [List.mem_filterMap] at hmem
        obtain ⟨e2, hmem2, hn2⟩ := hmem
        have hmem3 : some e2 ∈
            planLoop batch fold disk rest (planStep batch fold disk st r).2 :=
          List.reduceOption_mem_iff.mp hmem2
        have hfresh := planLoop_fresh_img hmem3 hn2
        have hclaimed := (planStep_image h1 hn).2
        rw [hfresh] at hclaimed
        simp at hclaimed

/-- C1: in every plan, the markdown targets of the non-skipped entries
are pairwise distinct, and so are the asset targets among entries that
attach an asset rename. -/
theorem C1_no_duplicate_targets (fold : Char → List Char) (disk : Disk)
    (batch : List Record) :
    ((((build_rename_plan fold disk batch).filter
        fun e => e.skip_reason.isNone).map fun e => e.new_md_name).Nodup) ∧
    (((build_rename_plan fold disk batch).filterMap
        fun e => e.new_image_name).Nodup) :=
  ⟨planLoop_nodup_md batch fold disk batch ⟨[], []⟩,
   planLoop_nodup_img batch fold disk batch ⟨[], []⟩⟩

/-- Every entry of the plan comes from some step of the loop. -/
theorem planLoop_mem_step {batch : List Record} {fold : Char → List Char}
    {disk : Disk} : ∀ {l : List Record} {st : Claimed} {e : RenamePlan},
    some e ∈ planLoop batch fold disk l st →
    ∃ r stx, r ∈ l ∧ (planStep batch fold disk stx r).1 = some e := by
  intro l
  induction l with
  | nil => intro st e hm; simp [planLoop] at hm
  | cons r rest ih =>
    intro st e hm
    simp only [planLoop] at hm
    rcases List.mem_cons.mp hm with h1 | h1
    · exact ⟨r, st, List.mem_cons_self r rest, h1.symm⟩
    · obtain ⟨r2, stx, hr2, hstep⟩ := ih h1
      exact ⟨r2, stx, List.mem_cons_of_mem _ hr2, hstep⟩

theorem append_md_ne_empty (s : String) : s ++ ".md" ≠ "" := by
  intro h
  have hlen := congrArg String.length h
  rw [String.length_append] at hlen
  have h3 : (".md" : String).length = 3 := rfl
  have h0 : ("" : String).length = 0 := rfl
  omega

/-- C10: in every plan entry, a skip reason is present exactly when the
markdown target is empty, and a skipped entry attaches no asset data, so
the `will_rename` / `skipped` partition of `main` covers every entry
exactly once. -/
theorem C10_entry_invariant (fold : Char → List Char) (disk : Disk)
    (batch : List Record) {e : RenamePlan}
    (h : e ∈ build_rename_plan fold disk batch) :
    (e.skip_reason ≠ none ↔ e.new_md_name = "") ∧
    (e.skip_reason ≠ none → e.image_file = none ∧ e.new_image_name = none) := by
  have hm : some e ∈ planLoop batch fold disk batch ⟨[], []⟩ :=
    List.reduceOption_mem_iff.mp h
  obtain ⟨r, stx, _, hstep⟩ := planLoop_mem_step hm
  rcases planStep_cases batch fold disk stx r with hc | ⟨reason, hc⟩ |
    ⟨slug, hslug, hne, hlk, hc⟩
  · rw [hc] at hstep
    exact absurd hstep (by simp)
  · rw [hc] at hstep
    have he : mkSkip r reason = e := Option.some_inj.mp hstep
    rw [← he]
    refine ⟨⟨fun _ => rfl, fun _ => by simp [mkSkip]⟩, fun _ => ⟨rfl, rfl⟩⟩
  · rw [hc] at hstep
    have he : (imageStage disk r slug (slug ++ ".md")
        ⟨(slug ++ ".md", r.stem) :: stx.plannedMd, stx.plannedImg⟩).1 = e :=
      Option.some_inj.mp hstep
    have hskip : e.skip_reason = none := by rw [← he, imageStage_skip]
    have hname : e.new_md_name = slug ++ ".md" := by rw [← he, imageStage_new_md_name]
    constructor
    · constructor
      · intro hcon; exact absurd hskip hcon
      · intro hcon
        rw [hname] at hcon
        exact absurd hcon (append_md_ne_empty slug)
    · intro hcon; exact absurd hskip hcon

/-- The loop's output aligns positionally with its input. -/
theorem planLoop_length (batch : List Record) (fold : Char → List Char)
    (disk : Disk) : ∀ (l : List Record) (st : Claimed),
    (planLoop batch fold disk l st).length = l.length := by
  intro l
  induction l with
  | nil => intro st; rfl
  | cons r rest ih =>
    intro st
    simp only [planLoop, List.length_cons, ih]

/-- The `n`-th outcome of the loop is the step applied to the `n`-th
record, at the claim-table state reached there. -/
theorem planLoop_get? {batch : List Record} {fold : Char → List Char}
    {disk : Disk} : ∀ {l : List Record} (st : Claimed) {n : Nat} {r : Record},
    l.get? n = some r →
    ∃ stx, (planLoop batch fold disk l st).get? n =
      some (planStep batch fold disk stx r).1 := by
  intro l
  induction l with
  | nil => intro st n r h; simp at h
  | cons r0 rest ih =>
    intro st n r h
    cases n with
    | zero =>
      have : r0 = r := by simpa using h
      subst this
      exact ⟨st, rfl⟩
    | succ m =>
      have hm : rest.get? m = some r := by simpa using h
      obtain ⟨stx, hx⟩ := ih ((planStep batch fold disk st r0).2) hm
      exact ⟨stx, hx⟩

/-- The loop `continue`s without appending a plan exactly when the
record misses a title or an image reference, or is the already-correctly
named no-op case. -/
def noDecision (fold : Char → List Char) (batch : List Record) (r : Record) : Prop :=
  r.title = "" ∨ r.image = "" ∨
    (is_filename_title r.title = false ∧ titleCount batch (strLower r.title) ≤ 1 ∧
      slugifyStr fold r.title = r.stem)

theorem planStep_none_iff {batch : List Record} {fold : Char → List Char}
    {disk : Disk} {st : Claimed} {r : Record} :
    (planStep batch fold disk st r).1 = none ↔ noDecision fold batch r := by
  rw [noDecision]
  simp only [planStep]
  split_ifs with h1 h2 h3 h4 h5 h6
  · exact iff_of_true rfl (h1.elim Or.inl fun h => Or.inr (Or.inl h))
  · refine iff_of_false (by simp) ?_
    rintro (hA | hB | ⟨hC, _, _⟩)
    · exact h1 (Or.inl hA)
    · exact h1 (Or.inr hB)
    · simp [h2] at hC
  · refine iff_of_false (by simp) ?_
    rintro (hA | hB | ⟨_, hD, _⟩)
    · exact h1 (Or.inl hA)
    · exact h1 (Or.inr hB)
    · omega
  · refine iff_of_true rfl (Or.inr (Or.inr ⟨?_, ?_, h4⟩))
    · simpa using h2
    · omega
  · refine iff_of_false (by simp) ?_
    rintro (hA | hB | ⟨_, _, hE⟩)
    · exact h1 (Or.inl hA)
    · exact h1 (Or.inr hB)
    · exact h4 hE
  · refine iff_of_false (by simp) ?_
    rintro (hA | hB | ⟨_, _, hE⟩)
    · exact h1 (Or.inl hA)
    · exact h1 (Or.inr hB)
    · exact h4 hE
  · split
    case _ other heq =>
      refine iff_of_false (by simp) ?_
      rintro (hA | hB | ⟨_, _, hE⟩)
      · exact h1 (Or.inl hA)
      · exact h1 (Or.inr hB)
      · exact h4 hE
    case _ heq =>
      refine iff_of_false (by simp) ?_
      rintro (hA | hB | ⟨_, _, hE⟩)
      · exact h1 (Or.inl hA)
      · exact h1 (Or.inr hB)
      · exact h4 hE

/-- C4 (amended): planning is total — it yields one outcome slot per
record — and the slot holds a decision exactly when the record has a
nonempty title and image reference and is not the already-correctly
named no-op; records missing a title or an image yield no decision. -/
theorem C4_one_outcome_per_record (fold : Char → List Char) (disk : Disk)
    (batch : List Record) :
    (planDecisions fold disk batch).length = batch.length ∧
    ∀ (i : Nat) (r : Record), batch.get? i = some r →
      ∃ d, (planDecisions fold disk batch).get? i = some d ∧
        (d = none ↔ noDecision fold batch r) := by
  constructor
  · exact planLoop_length batch fold disk batch ⟨[], []⟩
  · intro i r h
    obtain ⟨stx, hx⟩ := planLoop_get? ⟨[], []⟩ h
    exact ⟨_, hx, planStep_none_iff⟩

/-- C5: a record whose stem already equals the slug of its title, with a
title that is neither filename-like nor shared, gets no decision at all —
neither a Skip nor a Proceed entry. -/
theorem C5_noop_yields_nothing (fold : Char → List Char) (disk : Disk)
    (batch : List Record) (i : Nat) (r : Record)
    (hget : batch.get? i = some r)
    (hfn : is_filename_title r.title = false)
    (hdup : titleCount batch (strLower r.title) ≤ 1)
    (hslug : slugifyStr fold r.title = r.stem) :
    (planDecisions fold disk batch).get? i = some none := by
  obtain ⟨stx, hx⟩ := @planLoop_get? batch fold disk batch ⟨[], []⟩ i r hget
  have hnone : (planStep batch fold disk stx r).1 = none :=
    planStep_none_iff.mpr (Or.inr (Or.inr ⟨hfn, hdup, hslug⟩))
  rw [show planDecisions fold disk batch =
      planLoop batch fold disk batch ⟨[], []⟩ from rfl, hx, hnone]

/-- Two distinct positions satisfying `p` force a count above one. -/
theorem two_le_countP {α : Type} (p : α → Bool) :
    ∀ (l : List α) (i j : Nat) (a b : α), i ≠ j →
    l.get? i = some a → l.get? j = some b →
    p a = true → p b = true → 1 < l.countP p := by
  intro l
  induction l with
  | nil => intro i j a b _ ha _ _ _; simp at ha
  | cons x rest ih =>
    intro i j a b hij ha hb hpa hpb
    rw [List.countP_cons]
    cases i with
    | zero =>
      cases j with
      | zero => exact absurd rfl hij
      | succ m =>
        have hxa : x = a := by simpa using ha
        have hbm : rest.get? m = some b := by simpa using hb
        have h1 : 0 < rest.countP p :=
          List.countP_pos_iff.mpr ⟨b, List.get?_mem hbm, hpb⟩
        rw [if_pos (hxa ▸ hpa)]
        omega
    | succ m =>
      cases j with
      | zero =>
        have hxb : x = b := by simpa using hb
        have ham : rest.get? m = some a := by simpa using ha
        have h1 : 0 < rest.countP p :=
          List.countP_pos_iff.mpr ⟨a, List.get?_mem ham, hpa⟩
        rw [if_pos (hxb ▸ hpb)]
        omega
      | succ k =>
        have ham : rest.get? m = some a := by simpa using ha
        have hbk : rest.get? k = some b := by simpa using hb
        have := ih m k a b (by omega) ham hbk hpa hpb
        split_ifs <;> omega

/-- The duplicate-title branch of the loop body: it fires independently
of the claim tables whenever the record has a nonempty title and image,
a title that is not filename-like, and a shared lowercase title. -/
theorem planStep_dup {batch : List Record} {fold : Char → List Char}
    {disk : Disk} {st : Claimed} {r : Record}
    (ht : r.title ≠ "") (him : r.image ≠ "")
    (hfn : is_filename_title r.title = false)
    (hdup : 1 < titleCount batch (strLower r.title)) :
    planStep batch fold disk st r =
      (some (mkSkip r (dupReason (titleCount batch (strLower r.title)))), st) := by
  rw [planStep, if_neg ?hone, if_neg ?htwo, if_pos hdup]
  case hone => rintro (h | h); exacts [ht h, him h]
  case htwo => simp [hfn]

/-- C3 (amended): two records at distinct positions sharing a lowercase
title, both with nonempty title and image and neither title
filename-like, both receive the duplicate-title Skip (their sole
outcome), so neither proceeds. -/
theorem C3_amended_duplicate_title (fold : Char → List Char) (disk : Disk)
    (batch : List Record) (i j : Nat) (ri rj : Record)
    (hij : i ≠ j) (hi : batch.get? i = some ri) (hj : batch.get? j = some rj)
    (hsh : strLower ri.title = strLower rj.title)
    (hti : ri.title ≠ "") (htj : rj.title ≠ "")
    (hmi : ri.image ≠ "") (hmj : rj.image ≠ "")
    (hfi : is_filename_title ri.title = false)
    (hfj : is_filename_title rj.title = false) :
    1 < titleCount batch (strLower ri.title) ∧
    (planDecisions fold disk batch).get? i =
      some (some (mkSkip ri (dupReason (titleCount batch (strLower ri.title))))) ∧
    (planDecisions fold disk batch).get? j =
      some (some (mkSkip rj (dupReason (titleCount batch (strLower rj.title))))) := by
  have hcount : 1 < titleCount batch (strLower ri.title) := by
    rw [titleCount]
    exact two_le_countP _ batch i j ri rj hij hi hj (by simp [hti]) (by simp [htj, hsh])
  have hcount2 : 1 < titleCount batch (strLower rj.title) := by rwa [← hsh]
  refine ⟨hcount, ?_, ?_⟩
  · obtain ⟨stx, hx⟩ := @planLoop_get? batch fold disk batch ⟨[], []⟩ i ri hi
    rw [show planDecisions fold disk batch =
        planLoop batch fold disk batch ⟨[], []⟩ from rfl, hx,
      planStep_dup hti hmi hfi hcount]
  · obtain ⟨stx, hx⟩ := @planLoop_get? batch fold disk batch ⟨[], []⟩ j rj hj
    rw [show planDecisions fold disk batch =
        planLoop batch fold disk batch ⟨[], []⟩ from rfl, hx,
      planStep_dup htj hmj hfj hcount2]

/-! ## Concrete instances used in counterexamples and witnesses -/

/-- A disk on which nothing exists. -/
def emptyDisk : Disk := ⟨fun _ => false, fun _ _ => false⟩

/-- Two records sharing the filename-like title `IMG_1234`. -/
def cexDupA : Record := ⟨"a", "IMG_1234", "/assets/images/galleries/g1/x.jpg"⟩

/-- Second record sharing the filename-like title `IMG_1234`. -/
def cexDupB : Record := ⟨"b", "IMG_1234", "/assets/images/galleries/g1/y.jpg"⟩

theorem filename_reason_ne_dupReason (n : Nat) :
    "Title looks like a filename" ≠ dupReason n := by
  intro h
  have hlen := congrArg String.length h
  rw [dupReason, String.length_append, String.length_append] at hlen
  have h1 : ("Title looks like a filename" : String).length = 27 := rfl
  have h2 : ("Duplicate title (used by " : String).length = 25 := rfl
  have h3 : (" files)" : String).length = 7 := rfl
  omega

/-- C3 counterexample: two records share the case-insensitive title
`IMG_1234` (both with nonempty title and image), yet both skip with the
filename-likeness reason, not the duplicate-title reason — the
filename check runs first. -/
theorem C3_counterexample :
    strLower cexDupA.title = strLower cexDupB.title ∧
    cexDupA.title ≠ "" ∧ cexDupA.image ≠ "" ∧ cexDupB.image ≠ "" ∧
    (build_rename_plan keepAscii emptyDisk [cexDupA, cexDupB]).map
        (fun e => e.skip_reason) =
      [some "Title looks like a filename", some "Title looks like a filename"] ∧
    ∀ n : Nat, "Title looks like a filename" ≠ dupReason n :=
  ⟨rfl, by decide, by decide, by decide, by decide, filename_reason_ne_dupReason⟩

/-- C6: a record whose decision proceeds but whose referenced asset file
is absent from disk keeps its record-name rename, carries exactly the
image-file-not-found warning, and attaches no asset rename. -/
theorem C6_missing_asset_warning (fold : Char → List Char) (disk : Disk)
    (batch : List Record) (i : Nat) (r : Record) (e : RenamePlan)
    (hget : batch.get? i = some r)
    (hdec : (planDecisions fold disk batch).get? i = some (some e))
    (hskip : e.skip_reason = none)
    (hmiss : disk.imgExists (pathParentName r.image) (pathName r.image) = false) :
    e.new_md_name = slugifyStr fold r.title ++ ".md" ∧
    e.image_file = none ∧ e.new_image_name = none ∧
    e.warnings = ["Image file not found: " ++ pathName r.image] := by
  obtain ⟨stx, hx⟩ := @planLoop_get? batch fold disk batch ⟨[], []⟩ i r hget
  rw [show planDecisions fold disk batch =
      planLoop batch fold disk batch ⟨[], []⟩ from rfl, hx] at hdec
  have hstep : (planStep batch fold disk stx r).1 = some e := Option.some_inj.mp hdec
  rcases planStep_cases batch fold disk stx r with hc | ⟨reason, hc⟩ |
    ⟨slug, hslug, hne, hlk, hc⟩
  · rw [hc] at hstep
    exact absurd hstep (by simp)
  · rw [hc] at hstep
    have he : mkSkip r reason = e := Option.some_inj.mp hstep
    rw [← he] at hskip
    exact absurd hskip (by simp [mkSkip])
  · rw [hc] at hstep
    have he : (imageStage disk r slug (slug ++ ".md")
        ⟨(slug ++ ".md", r.stem) :: stx.plannedMd, stx.plannedImg⟩).1 = e :=
      Option.some_inj.mp hstep
    subst hslug
    rw [← he]
    simp only [imageStage]
    rw [if_neg (by simp [hmiss])]
    exact ⟨rfl, rfl, rfl, rfl⟩

/-- The record of the C6 witness. -/
def cRec6 : Record := ⟨"old-name", "Blue Sky", "/assets/images/galleries/g1/old.jpg"⟩

/-- The plan entry the C6 witness batch produces. -/
def cEntry6 : RenamePlan :=
  ⟨"old-name", "blue-sky.md", none, none, "Blue Sky",
    ["Image file not found: old.jpg"], none⟩

/-- Witness for C6 on a concrete one-record batch with no asset files on
disk. -/
theorem C6_missing_asset_warning_witness :
    ([cRec6].get? 0 = some cRec6) ∧
    ((planDecisions keepAscii emptyDisk [cRec6]).get? 0 = some (some cEntry6)) ∧
    (cEntry6.skip_reason = none) ∧
    (emptyDisk.imgExists (pathParentName cRec6.image) (pathName cRec6.image) = false) ∧
    (cEntry6.new_md_name = slugifyStr keepAscii cRec6.title ++ ".md" ∧
      cEntry6.image_file = none ∧ cEntry6.new_image_name = none ∧
      cEntry6.warnings = ["Image file not found: " ++ pathName cRec6.image]) :=
  ⟨rfl, by decide, rfl, rfl,
   C6_missing_asset_warning keepAscii emptyDisk [cRec6] 0 cRec6 cEntry6 rfl
     (by decide) rfl rfl⟩

/-! ## Asset target basenames of Proceed decisions (claim C7)

A computed asset target is `new_slug ++ ext` where the slug is dot-free
and the extension is empty or starts with the only dot of the basename;
two Proceed decisions therefore share an asset target basename only if
they share a slug, which the record-level collision check rules out. -/

theorem slugifyStr_no_dot (fold : Char → List Char) (t : String) :
    '.' ∉ (slugifyStr fold t).toList := by
  intro hmem
  have hc := (slugify_canonical fold t.toList).1 '.' hmem
  exact absurd hc (by decide)

theorem pathSuffix_shape (name : String) :
    pathSuffix name = "" ∨
      ∃ tail, (pathSuffix name).toList = '.' :: tail ∧ '.' ∉ tail ∧ tail ≠ [] := by
  rw [pathSuffix]
  split_ifs with h1 h2 h3
  · exact Or.inl rfl
  · exact Or.inl rfl
  · exact Or.inl rfl
  · right
    refine ⟨(name.toList.reverse.takeWhile fun c => c ≠ '.').reverse, rfl, ?_, ?_⟩
    · intro hmem
      have hp := List.mem_takeWhile_imp (List.mem_reverse.mp hmem)
      simp at hp
    · intro h0
      apply h2
      have hnil : (name.toList.reverse.takeWhile fun c => c ≠ '.') = [] := by
        rwa [List.reverse_eq_nil_iff] at h0
      rw [hnil]
      rfl

theorem dotless_concat_inj : ∀ (s1 s2 t1 t2 : List Char), '.' ∉ s1 → '.' ∉ s2 →
    s1 ++ '.' :: t1 = s2 ++ '.' :: t2 → s1 = s2 := by
  intro s1
  induction s1 with
  | nil =>
    intro s2 t1 t2 _ h2 heq
    cases s2 with
    | nil => rfl
    | cons d s2' =>
      rw [List.nil_append, List.cons_append] at heq
      have hd : '.' = d := (List.cons.injEq _ _ _ _ ▸ heq : _ ∧ _).1
      exact absurd (hd ▸ List.mem_cons_self d s2') h2
  | cons c s1' ih =>
    intro s2 t1 t2 h1 h2 heq
    cases s2 with
    | nil =>
      rw [List.cons_append, List.nil_append] at heq
      have hc : c = '.' := (List.cons.injEq _ _ _ _ ▸ heq : _ ∧ _).1
      exact absurd (hc ▸ List.mem_cons_self c s1') h1
    | cons d s2' =>
      rw [List.cons_append, List.cons_append] at heq
      have hcd := (List.cons.injEq _ _ _ _ ▸ heq : _ ∧ _)
      rw [hcd.1]
      rw [ih s2' t1 t2 (fun hm => h1 (List.mem_cons_of_mem _ hm))
        (fun hm => h2 (List.mem_cons_of_mem _ hm)) hcd.2]

theorem toList_append (a b : String) : (a ++ b).toList = a.toList ++ b.toList := rfl

/-- Equal computed asset basenames force equal slugs. -/
theorem slug_ext_inj (fold : Char → List Char) (t1 t2 n1 n2 : String)
    (h : slugifyStr fold t1 ++ pathSuffix n1 = slugifyStr fold t2 ++ pathSuffix n2) :
    slugifyStr fold t1 = slugifyStr fold t2 := by
  have hl := congrArg String.toList h
  rw [toList_append, toList_append] at hl
  have hd1 := slugifyStr_no_dot fold t1
  have hd2 := slugifyStr_no_dot fold t2
  rcases pathSuffix_shape n1 with he1 | ⟨tail1, he1, _, _⟩ <;>
    rcases pathSuffix_shape n2 with he2 | ⟨tail2, he2, _, _⟩
  · have he1x : (pathSuffix n1).toList = [] := by rw [he1]; rfl
    have he2x : (pathSuffix n2).toList = [] := by rw [he2]; rfl
    rw [he1x, he2x, List.append_nil, List.append_nil] at hl
    exact String.ext hl
  · have he1x : (pathSuffix n1).toList = [] := by rw [he1]; rfl
    rw [he1x, List.append_nil, he2] at hl
    exact absurd (hl.symm ▸ List.mem_append_right (slugifyStr fold t2).toList
      (List.mem_cons_self '.' tail2)) hd1
  · have he2x : (pathSuffix n2).toList = [] := by rw [he2]; rfl
    rw [he2x, List.append_nil, he1] at hl
    exact absurd (hl ▸ List.mem_append_right (slugifyStr fold t1).toList
      (List.mem_cons_self '.' tail1)) hd2
  · rw [he1, he2] at hl
    exact String.ext (dotless_concat_inj _ _ _ _ hd1 hd2 hl)

/-- Two Proceed outcomes at distinct loop positions carry distinct
markdown targets. -/
theorem planLoop_distinct_md {batch : List Record} {fold : Char → List Char}
    {disk : Disk} : ∀ {l : List Record} {st : Claimed} {i j : Nat}
    {ei ej : RenamePlan}, i < j →
    (planLoop batch fold disk l st).get? i = some (some ei) →
    (planLoop batch fold disk l st).get? j = some (some ej) →
    ei.skip_reason = none → ej.skip_reason = none →
    ei.new_md_name ≠ ej.new_md_name := by
  intro l
  induction l with
  | nil => intro st i j ei ej hij hi hj _ _; simp [planLoop] at hi
  | cons r rest ih =>
    intro st i j ei ej hij hi hj hsi hsj
    simp only [planLoop] at hi hj
    cases i with
    | zero =>
      have hstep : (planStep batch fold disk st r).1 = some ei := by simpa using hi
      cases j with
      | zero => omega
      | succ m =>
        have hjm : (planLoop batch fold disk rest
            (planStep batch fold disk st r).2).get? m = some (some ej) := by
          simpa using hj
        have hmem : some ej ∈ planLoop batch fold disk rest
            (planStep batch fold disk st r).2 := List.get?_mem hjm
        have hfresh := planLoop_fresh_md hmem hsj
        have hclaimed := (planStep_proceed hstep hsi).2.2.2.2.2
        intro heq
        rw [← heq] at hfresh
        rw [hfresh] at hclaimed
        simp at hclaimed
    | succ m =>
      cases j with
      | zero => omega
      | succ k =>
        have him : (planLoop batch fold disk rest
            (planStep batch fold disk st r).2).get? m = some (some ei) := by
          simpa using hi
        have hjk : (planLoop batch fold disk rest
            (planStep batch fold disk st r).2).get? k = some (some ej) := by
          simpa using hj
        exact ih (by omega) him hjk hsi hsj

/-- C7 (amended): asset target names are claimed globally by basename,
not per gallery folder — see `C7_counterexample` — but the situation the
claim describes cannot arise: two Proceed decisions never share a
computed asset target basename, because equal basenames would force
equal slugs and the later record would already have skipped on the
record-level collision check. -/
theorem C7_distinct_asset_targets (fold : Char → List Char) (disk : Disk)
    (batch : List Record) (i j : Nat) (ri rj : Record) (ei ej : RenamePlan)
    (hij : i ≠ j)
    (hgi : batch.get? i = some ri) (hgj : batch.get? j = some rj)
    (hdi : (planDecisions fold disk batch).get? i = some (some ei))
    (hdj : (planDecisions fold disk batch).get? j = some (some ej))
    (hsi : ei.skip_reason = none) (hsj : ej.skip_reason = none) :
    slugifyStr fold ri.title ++ pathSuffix (pathName ri.image) ≠
      slugifyStr fold rj.title ++ pathSuffix (pathName rj.image) := by
  have hdi' : (planLoop batch fold disk batch ⟨[], []⟩).get? i = some (some ei) := hdi
  have hdj' : (planLoop batch fold disk batch ⟨[], []⟩).get? j = some (some ej) := hdj
  have hnames : ei.new_md_name ≠ ej.new_md_name := by
    rcases Nat.lt_or_ge i j with hlt | hge
    · exact planLoop_distinct_md hlt hdi' hdj' hsi hsj
    · have hlt : j < i := by omega
      exact (planLoop_distinct_md hlt hdj' hdi' hsj hsi).symm
  obtain ⟨sti, hxi⟩ := @planLoop_get? batch fold disk batch ⟨[], []⟩ i ri hgi
  obtain ⟨stj, hxj⟩ := @planLoop_get? batch fold disk batch ⟨[], []⟩ j rj hgj
  rw [hxi] at hdi'
  rw [hxj] at hdj'
  have hni := (planStep_proceed (Option.some_inj.mp hdi') hsi).2.2.1
  have hnj := (planStep_proceed (Option.some_inj.mp hdj') hsj).2.2.1
  intro heq
  apply hnames
  rw [hni, hnj, slug_ext_inj fold ri.title rj.title
    (pathName ri.image) (pathName rj.image) heq]

/-- Claim tables in which the asset basename `x-y.jpg` is already
claimed, by a record whose asset lives in gallery `g1`. -/
def c7State : Claimed := ⟨[], [("x-y.jpg", "a")]⟩

/-- A record whose asset lives in gallery `g2` and whose target basename
is the claimed `x-y.jpg`. -/
def c7Rec : Record := ⟨"b", "X Y", "/assets/images/galleries/g2/old.jpg"⟩

/-- A disk on which only `g2/old.jpg` exists. -/
def c7Disk : Disk := ⟨fun _ => false, fun g n => g == "g2" && n == "old.jpg"⟩

/-- C7 counterexample: asset target names are not claimed per gallery
folder.  The claim table records basenames only; with `x-y.jpg` claimed
for an asset in gallery `g1`, a record whose asset lives in the
different gallery `g2`, has no on-disk conflict, and computes the same
target basename still gets the asset-collision warning with its asset
rename omitted. -/
theorem C7_counterexample :
    pathParentName c7Rec.image = "g2" ∧
    c7Disk.imgExists "g2" "x-y.jpg" = false ∧
    (planStep [c7Rec] keepAscii c7Disk c7State c7Rec).1 =
      some ⟨"b", "x-y.md", none, none, "X Y",
        ["Image collision with planned rename of a.md"], none⟩ :=
  ⟨rfl, rfl, by decide⟩

/-- First record of the C7 witness batch (asset in gallery `g1`). -/
def c7wA : Record := ⟨"a1", "Blue Sky", "/assets/images/galleries/g1/one.jpg"⟩

/-- Second record of the C7 witness batch (asset in gallery `g2`). -/
def c7wB : Record := ⟨"b1", "Red Sky", "/assets/images/galleries/g2/two.jpg"⟩

/-- The first decision of the C7 witness batch. -/
def c7wEA : RenamePlan :=
  ⟨"a1", "blue-sky.md", none, none, "Blue Sky",
    ["Image file not found: one.jpg"], none⟩

/-- The second decision of the C7 witness batch. -/
def c7wEB : RenamePlan :=
  ⟨"b1", "red-sky.md", none, none, "Red Sky",
    ["Image file not found: two.jpg"], none⟩

/-- Witness for the amended C7 on a concrete two-record batch whose
records both proceed. -/
theorem C7_distinct_asset_targets_witness :
    ((0 : Nat) ≠ 1) ∧
    ([c7wA, c7wB].get? 0 = some c7wA) ∧ ([c7wA, c7wB].get? 1 = some c7wB) ∧
    ((planDecisions keepAscii emptyDisk [c7wA, c7wB]).get? 0 = some (some c7wEA)) ∧
    ((planDecisions keepAscii emptyDisk [c7wA, c7wB]).get? 1 = some (some c7wEB)) ∧
    (c7wEA.skip_reason = none) ∧ (c7wEB.skip_reason = none) ∧
    slugifyStr keepAscii c7wA.title ++ pathSuffix (pathName c7wA.image) ≠
      slugifyStr keepAscii c7wB.title ++ pathSuffix (pathName c7wB.image) :=
  ⟨by decide, rfl, rfl, by decide, by decide, rfl, rfl,
   C7_distinct_asset_targets keepAscii emptyDisk [c7wA, c7wB] 0 1 c7wA c7wB
     c7wEA c7wEB (by decide) rfl rfl (by decide) (by decide) rfl rfl⟩

/-- C8: evaluation of the gallery cross-reference rewrite at a file
holding both `- sunset` and the distinct identifier `- sunset-2`.  Both
`- sunset` occurrences are replaced (not just the first), but the
replacement is a plain substring replace: the entry of the distinct
identifier `sunset-2`, of which `sunset` is a proper prefix, is
corrupted into `- dusk-2` instead of being left unchanged. -/
theorem C8_replace_hits_extended_identifiers :
    strReplace "artworks:\n  - sunset\n  - sunset-2\n" "- sunset" "- dusk" =
      "artworks:\n  - dusk\n  - dusk-2\n" ∧
    update_gallery_data_files "sunset" "dusk"
        [("byland.yml", "artworks:\n  - sunset\n  - sunset-2\n")] =
      (["byland.yml"], [FsOp.rewriteDoc "byland.yml"]) :=
  ⟨by decide, by decide⟩

/-- C9: when the markdown move of a decision fails, the executor
reports only the error for that record — the asset move and the
cross-reference rewrite are not attempted — and the batch loop carries
on with the next decision, unaffected. -/
theorem C9_md_move_failure_aborts_decision (env : ExecEnv) (p : RenamePlan)
    (rest : List RenamePlan)
    (hfail : env.mdMvOk (p.md_stem ++ ".md") p.new_md_name = false) :
    executePlan env p = (["ERROR: Failed to move " ++ (p.md_stem ++ ".md")],
      [FsOp.gitMove (p.md_stem ++ ".md") p.new_md_name]) ∧
    executeBatch env (p :: rest) = executePlan env p :: executeBatch env rest := by
  constructor
  · simp only [executePlan]
    rw [if_neg (by simp [hfail])]
  · rfl

/-- Execution environment on which every move fails. -/
def c9Env : ExecEnv := ⟨fun _ _ => false, fun _ _ _ => false, []⟩

/-- A Proceed decision with an attached asset rename. -/
def c9Plan : RenamePlan :=
  ⟨"old-name", "blue-sky.md", some ("g1", "old.jpg"), some "blue-sky.jpg",
    "Blue Sky", [], none⟩

/-- Witness for C9 at a concrete decision whose markdown move fails. -/
theorem C9_md_move_failure_witness :
    (c9Env.mdMvOk (c9Plan.md_stem ++ ".md") c9Plan.new_md_name = false) ∧
    (executePlan c9Env c9Plan =
        (["ERROR: Failed to move " ++ (c9Plan.md_stem ++ ".md")],
         [FsOp.gitMove (c9Plan.md_stem ++ ".md") c9Plan.new_md_name]) ∧
      executeBatch c9Env (c9Plan :: []) =
        executePlan c9Env c9Plan :: executeBatch c9Env []) :=
  ⟨rfl, C9_md_move_failure_aborts_decision c9Env c9Plan [] rfl⟩

/-- A record with an empty (missing) title. -/
def c4Rec : Record := ⟨"a", "", "/assets/images/galleries/g1/x.jpg"⟩

/-- C4 counterexample: a record missing its title yields no decision at
all — the batch has one record but the plan holds no entry for it,
neither Skip nor Proceed. -/
theorem C4_counterexample :
    c4Rec.title = "" ∧
    planDecisions keepAscii emptyDisk [c4Rec] = [none] ∧
    build_rename_plan keepAscii emptyDisk [c4Rec] = [] :=
  ⟨rfl, by decide, by decide⟩

/-- Witness for the amended C4 on a concrete one-record batch. -/
theorem C4_one_outcome_per_record_witness :
    (planDecisions keepAscii emptyDisk [c4Rec]).length = [c4Rec].length ∧
    ([c4Rec].get? 0 = some c4Rec ∧
      ∃ d, (planDecisions keepAscii emptyDisk [c4Rec]).get? 0 = some d ∧
        (d = none ↔ noDecision keepAscii [c4Rec] c4Rec)) :=
  ⟨(C4_one_outcome_per_record keepAscii emptyDisk [c4Rec]).1,
   rfl, (C4_one_outcome_per_record keepAscii emptyDisk [c4Rec]).2 0 c4Rec rfl⟩

/-- First record of the C3 witness batch. -/
def c3wA : Record := ⟨"a", "Study", "/assets/images/galleries/g1/x.jpg"⟩

/-- Second record of the C3 witness batch, sharing the title up to
case. -/
def c3wB : Record := ⟨"b", "study", "/assets/images/galleries/g1/y.jpg"⟩

/-- Witness for the amended C3 on a concrete two-record batch sharing
the case-insensitive title `Study`. -/
theorem C3_amended_duplicate_title_witness :
    ((0 : Nat) ≠ 1) ∧
    ([c3wA, c3wB].get? 0 = some c3wA) ∧ ([c3wA, c3wB].get? 1 = some c3wB) ∧
    (strLower c3wA.title = strLower c3wB.title) ∧
    (c3wA.title ≠ "") ∧ (c3wB.title ≠ "") ∧
    (c3wA.image ≠ "") ∧ (c3wB.image ≠ "") ∧
    (is_filename_title c3wA.title = false) ∧
    (is_filename_title c3wB.title = false) ∧
    (1 < titleCount [c3wA, c3wB] (strLower c3wA.title) ∧
      (planDecisions keepAscii emptyDisk [c3wA, c3wB]).get? 0 =
        some (some (mkSkip c3wA
          (dupReason (titleCount [c3wA, c3wB] (strLower c3wA.title))))) ∧
      (planDecisions keepAscii emptyDisk [c3wA, c3wB]).get? 1 =
        some (some (mkSkip c3wB
          (dupReason (titleCount [c3wA, c3wB] (strLower c3wB.title)))))) :=
  ⟨by decide, rfl, rfl, by decide, by decide, by decide, by decide, by decide,
   by decide, by decide,
   C3_amended_duplicate_title keepAscii emptyDisk [c3wA, c3wB] 0 1 c3wA c3wB
     (by decide) rfl rfl (by decide) (by decide) (by decide) (by decide)
     (by decide) (by decide) (by decide)⟩

/-- A record already named after its title. -/
def c5Rec : Record := ⟨"study", "Study", "/assets/images/galleries/g1/x.jpg"⟩

/-- Witness for C5 on a concrete already-correctly-named record. -/
theorem C5_noop_yields_nothing_witness :
    ([c5Rec].get? 0 = some c5Rec) ∧
    (is_filename_title c5Rec.title = false) ∧
    (titleCount [c5Rec] (strLower c5Rec.title) ≤ 1) ∧
    (slugifyStr keepAscii c5Rec.title = c5Rec.stem) ∧
    (planDecisions keepAscii emptyDisk [c5Rec]).get? 0 = some none :=
  ⟨rfl, by decide, by decide, by decide,
   C5_noop_yields_nothing keepAscii emptyDisk [c5Rec] 0 c5Rec rfl (by decide)
     (by decide) (by decide)⟩

/-- Witness for C10 at a concrete plan entry. -/
theorem C10_entry_invariant_witness :
    (cEntry6 ∈ build_rename_plan keepAscii emptyDisk [cRec6]) ∧
    ((cEntry6.skip_reason ≠ none ↔ cEntry6.new_md_name = "") ∧
      (cEntry6.skip_reason ≠ none →
        cEntry6.image_file = none ∧ cEntry6.new_image_name = none)) :=
  ⟨by decide, C10_entry_invariant keepAscii emptyDisk [cRec6] (by decide)⟩
